import Mathlib

/-!
Verification of the sunpy image coalignment helpers
(src/sunpy/image/coalignment.py), shallowly embedded over exact
rationals.  Two dimensional float arrays with possibly non finite
entries are modelled as functions into Option of the rationals (none
is a non finite entry, NaN or Inf); fully finite arrays (correlation
surfaces) are functions into the rationals.  Python exceptions are
modelled with Except, printed diagnostics are collected in a list of
strings, and the Python while loop of repair_nonfinite is modelled
with explicit fuel.
-/

/-- Dot product of two rational lists, as numpy dot on equal length
one dimensional arrays.  Used by parabolic_turning_point, always on
length three lists. -/
def dotq (a b : List ℚ) : ℚ := (List.zipWith (fun u v => u * v) a b).sum

/-- Source parabolic_turning_point: the turning point of the parabola
through the samples f(-1), f(0), f(1) given by the three entries of y,
computed as numerator over denominator with
numerator = -0.5 * y.dot([-1, 0, 1]) and
denominator = y.dot([1, -2, 1]). -/
def parabolic_turning_point (y : List ℚ) : ℚ :=
  (-(1 / 2) * dotq y [-1, 0, 1]) / dotq y [1, -2, 1]

/-- A two dimensional array of finite floats, indexed by row then
column; entries outside the ny by nx range are irrelevant. -/
structure Surf where
  ny : ℕ
  nx : ℕ
  data : ℕ → ℕ → ℚ

/-- Row major list of all index pairs of an ny by nx array, the scan
order used by numpy argmax and numpy where. -/
def idxList (ny nx : ℕ) : List (ℕ × ℕ) :=
  (List.range (ny * nx)).map (fun k => (k / nx, k % nx))

/-- Index (row, col) of the first occurrence of the maximum of the
surface in row major scan order: the result of
np.unravel_index(np.argmax(corr), corr.shape). -/
def peakOf (s : Surf) : ℕ × ℕ :=
  (idxList s.ny s.nx).foldl
    (fun best p => if s.data best.1 best.2 < s.data p.1 p.2 then p else best) (0, 0)

/-- Numpy basic slice corr[r0:r1, c0:c1] for bounds that are already
nonnegative and at most the axis length (ℕ subtraction gives the empty
array when the stop is at most the start, as in numpy). -/
def Surf.slice (s : Surf) (r0 r1 c0 c1 : ℕ) : Surf :=
  ⟨r1 - r0, c1 - c0, fun i j => s.data (r0 + i) (c0 + j)⟩

/-- Source get_correlation_shifts.  The first component collects
printed diagnostics; the second is Except.ok none for the sentinel
return (None, None), Except.ok (some (y, x)) for a computed location,
and Except.error for the ValueError numpy argmax raises on an empty
array. -/
def get_correlation_shifts (a : Surf) : List String × Except String (Option (ℚ × ℚ)) :=
  if 3 < a.nx ∨ 3 < a.ny then
    (["Input array is too big in at least one dimension. Returning Nones"], Except.ok none)
  else if a.ny = 0 ∨ a.nx = 0 then
    ([], Except.error ("attempt to get argmax of an empty sequence"))
  else
    let p := peakOf a
    let y_location : ℚ :=
      if a.ny = 3 then
        parabolic_turning_point [a.data 0 p.2, a.data 1 p.2, a.data 2 p.2]
      else (p.1 : ℚ)
    let x_location : ℚ :=
      if a.nx = 3 then
        parabolic_turning_point [a.data p.1 0, a.data p.1 1, a.data p.1 2]
      else (p.2 : ℚ)
    ([], Except.ok (some (y_location, x_location)))

/-- The sub array of the correlation surface around its integer peak,
exactly as carved out in find_best_match_location:
corr[max(0, row-1) : min(row+2, ny-1), max(0, col-1) : min(col+2, nx-1)]. -/
def array_around_maximum (c : Surf) : Surf :=
  let p := peakOf c
  Surf.slice c (max 0 (p.1 - 1)) (min (p.1 + 2) (c.ny - 1))
    (max 0 (p.2 - 1)) (min (p.2 + 2) (c.nx - 1))

/-- Source find_best_match_location: locate the integer peak, refine
inside the clamped neighborhood with get_correlation_shifts, and add
the integer peak location to the refined offsets.  An empty surface
makes numpy argmax raise; a sentinel (None, None) from the refinement
would make the additions raise a TypeError. -/
def find_best_match_location (c : Surf) : Except String (ℚ × ℚ) :=
  if c.ny = 0 ∨ c.nx = 0 then
    Except.error ("attempt to get argmax of an empty sequence")
  else
    let p := peakOf c
    match (get_correlation_shifts (array_around_maximum c)).2 with
    | Except.error e => Except.error e
    | Except.ok none => Except.error ("unsupported operand types for addition")
    | Except.ok (some q) => Except.ok (q.1 + (p.1 : ℚ), q.2 + (p.2 : ℚ))

/-- A two dimensional array whose entries are either finite floats
(some q) or non finite NaN or Inf entries (none). -/
structure Grid where
  ny : ℕ
  nx : ℕ
  data : ℕ → ℕ → Option ℚ

/-- Python slice endpoint normalisation on an axis of length n:
negative endpoints count from the end, then the endpoint is clamped
into [0, n]. -/
def pyClamp (a : ℤ) (n : ℕ) : ℕ :=
  min ((if a < 0 then a + n else a).toNat) n

/-- The list of indices selected by the Python slice l[a:b] on an axis
of length n. -/
def pyIdxs (a b : ℤ) (n : ℕ) : List ℕ :=
  ((List.range n).take (pyClamp b n)).drop (pyClamp a n)

/-- The window centre coordinate that repair_nonfinite derives from a
bad coordinate b on an axis of length n: b itself, moved to 1 when
b = 0 and to n - 2 when b = n - 1 (the second test wins when both
fire, as in the source where the two if statements run in order). -/
def adjIdx (b : ℕ) (n : ℕ) : ℤ :=
  if (b : ℤ) = (n : ℤ) - 1 then (n : ℤ) - 2
  else if b = 0 then 1 else (b : ℤ)

/-- The cells of the sub array z[y-1 : y+2, x-1 : x+2] that
repair_nonfinite averages over for the bad cell (by, bx), with y and x
the adjusted coordinates and Python slice semantics on each axis. -/
def windowCells (ny nx b_y b_x : ℕ) : List (ℕ × ℕ) :=
  (pyIdxs (adjIdx b_y ny - 1) (adjIdx b_y ny + 2) ny).flatMap
    (fun i => (pyIdxs (adjIdx b_x nx - 1) (adjIdx b_x nx + 2) nx).map (fun j => (i, j)))

/-- The values of the repair window of (by, bx) in z. -/
def windowVals (z : Grid) (b_y b_x : ℕ) : List (Option ℚ) :=
  (windowCells z.ny z.nx b_y b_x).map (fun q => z.data q.1 q.2)

/-- np.nanmean(subarray * np.isfinite(subarray)): the mean of the
finite values of the window (non finite entries become NaN under the
mask multiplication and nanmean ignores them), or NaN (none) when the
window has no finite value. -/
def windowMean (z : Grid) (b_y b_x : ℕ) : Option ℚ :=
  let vs := (windowVals z b_y b_x).reduceOption
  if vs.isEmpty then none else some (vs.sum / (vs.length : ℚ))

/-- Write the value v at cell (i, j) of the grid. -/
def Grid.setCell (z : Grid) (i j : ℕ) (v : Option ℚ) : Grid :=
  ⟨z.ny, z.nx, fun a b => if a = i ∧ b = j then v else z.data a b⟩

/-- The first non finite cell of z in row major order: the head of
np.where(np.logical_not(np.isfinite(z))). -/
def firstBad (z : Grid) : Option (ℕ × ℕ) :=
  (idxList z.ny z.nx).find? (fun p => (z.data p.1 p.2).isNone)

/-- One iteration of the while loop body of repair_nonfinite: replace
the bad cell p with the nan-mean of its window. -/
def repairStep (z : Grid) (p : ℕ × ℕ) : Grid :=
  z.setCell p.1 p.2 (windowMean z p.1 p.2)

/-- Source repair_nonfinite, with the unbounded while loop made
explicit by fuel: rerun the loop body on the first bad cell while one
exists; none is returned when the fuel is exhausted while bad cells
remain (the loop would still be running). -/
def repair_nonfinite (fuel : ℕ) (z : Grid) : Option Grid :=
  match firstBad z with
  | none => some z
  | some p =>
    match fuel with
    | 0 => none
    | f + 1 => repair_nonfinite f (repairStep z p)

/-- The set of non finite cells of the grid. -/
def badSet (z : Grid) : Finset (ℕ × ℕ) :=
  (Finset.range z.ny ×ˢ Finset.range z.nx).filter (fun q => z.data q.1 q.2 = none)

/-- The number of non finite cells of the grid. -/
def badCount (z : Grid) : ℕ := (badSet z).card

/-- Every in range entry of the grid is finite. -/
def allFinite (z : Grid) : Prop :=
  ∀ i, i < z.ny → ∀ j, j < z.nx → (z.data i j).isSome = true

/-- Every non finite cell has at least one finite value inside its
repair window. -/
def windowFiniteHyp (z : Grid) : Prop :=
  ∀ i, i < z.ny → ∀ j, j < z.nx → z.data i j = none →
    ∃ q ∈ windowCells z.ny z.nx i j, (z.data q.1 q.2).isSome = true

/-- No repair window of a non finite cell contains another non finite
cell. -/
def windowDisjointHyp (z : Grid) : Prop :=
  ∀ i, i < z.ny → ∀ j, j < z.nx → z.data i j = none →
    ∀ q ∈ windowCells z.ny z.nx i j, q ≠ (i, j) → (z.data q.1 q.2).isSome = true

/-- Every non finite cell is isolated: all in range cells at Chebyshev
distance one from it are finite. -/
def isolatedHyp (z : Grid) : Prop :=
  ∀ p ∈ idxList z.ny z.nx, z.data p.1 p.2 = none →
    ∀ q ∈ idxList z.ny z.nx,
      (q ≠ p ∧ q.1 ≤ p.1 + 1 ∧ p.1 ≤ q.1 + 1 ∧ q.2 ≤ p.2 + 1 ∧ p.2 ≤ q.2 + 1) →
        (z.data q.1 q.2).isSome = true

/-- Bounded reachability of a finite value through the connected
neighborhood context: at depth zero the window of the cell holds a
finite value, at depth n+1 either that or some non finite cell of the
window reaches a finite value at depth n. -/
def reachB (z : Grid) : ℕ → ℕ × ℕ → Bool
  | 0, p => (windowVals z p.1 p.2).any (fun v => v.isSome)
  | n + 1, p =>
    (windowVals z p.1 p.2).any (fun v => v.isSome) ||
      (windowCells z.ny z.nx p.1 p.2).any
        (fun q => (z.data q.1 q.2).isNone && reachB z n q)

/-- Each non finite cell of the grid can reach a finite value through
the connected neighborhood context at some depth. -/
def connReach (z : Grid) : Prop :=
  ∀ i, i < z.ny → ∀ j, j < z.nx → z.data i j = none → ∃ n, reachB z n (i, j) = true

/-- The grid z with every cell of S replaced by the nan-mean of its
window in the original z (the intermediate states of the repair loop
when no window overlaps another bad cell). -/
def patchSet (z : Grid) (S : Finset (ℕ × ℕ)) : Grid :=
  ⟨z.ny, z.nx, fun i j => if (i, j) ∈ S then windowMean z i j else z.data i j⟩

/-- A three dimensional datacube of shape (ny, nx, nt). -/
structure Cube where
  ny : ℕ
  nx : ℕ
  nt : ℕ
  data : ℕ → ℕ → ℕ → ℚ

/-- Numpy basic slice datacube[a:b, a2:b2, a3:b3] with Python slice
semantics on each axis. -/
def Cube.slice3 (d : Cube) (a b a2 b2 a3 b3 : ℤ) : Cube :=
  let r0 := pyClamp a d.ny
  let r1 := pyClamp b d.ny
  let c0 := pyClamp a2 d.nx
  let c1 := pyClamp b2 d.nx
  let t0 := pyClamp a3 d.nt
  let t1 := pyClamp b3 d.nt
  ⟨r1 - r0, c1 - c0, t1 - t0, fun i j k => d.data (r0 + i) (c0 + j) (t0 + k)⟩

/-- Source _upper_clip: the maximum of the ceilings of the entries
that are at least zero, and zero when there is no such entry. -/
def _upper_clip (z : List ℚ) : ℤ :=
  match (z.filter (fun v => decide (0 ≤ v))).map (fun v => ⌈v⌉) with
  | [] => 0
  | a :: rest => rest.foldl max a

/-- Source _lower_clip: the maximum of the ceilings of the negations
of the entries that are at most zero, and zero when there is no such
entry. -/
def _lower_clip (z : List ℚ) : ℤ :=
  match (z.filter (fun v => decide (v ≤ 0))).map (fun v => ⌈-v⌉) with
  | [] => 0
  | a :: rest => rest.foldl max a

/-- Source clip_edges: return
datacube[ylower : ny - yupper - 1, xlower : nx - xupper - 1, 0 : nt]. -/
def clip_edges (d : Cube) (y x : List ℚ) : Cube :=
  d.slice3 (_lower_clip y) ((d.ny : ℤ) - _upper_clip y - 1)
    (_lower_clip x) ((d.nx : ℤ) - _upper_clip x - 1) 0 (d.nt : ℤ)

/-- Modelled from the wording of the claim: the maximum of ceil v over
the entries v of z with v at least 0, and 0 if there are none. -/
def specUpperClip (z : List ℚ) : ℤ :=
  (((z.filter (fun v => decide (0 ≤ v))).map (fun v => ⌈v⌉)).maximum).unbot' 0

/-- Modelled from the wording of the claim: the maximum of ceil (-v)
over the entries v of z with v at most 0, and 0 if there are none. -/
def specLowerClip (z : List ℚ) : ℤ :=
  (((z.filter (fun v => decide (v ≤ 0))).map (fun v => ⌈-v⌉)).maximum).unbot' 0

/-- Decidable equality on Except values, used to evaluate the embedded
functions on concrete inputs. -/
instance instDecEqExcept {e a : Type} [DecidableEq e] [DecidableEq a] :
    DecidableEq (Except e a)
  | Except.error u, Except.error v =>
    if h : u = v then Decidable.isTrue (congrArg Except.error h)
    else Decidable.isFalse (fun hc => h (Except.error.inj hc))
  | Except.error _, Except.ok _ => Decidable.isFalse (fun hc => Except.noConfusion hc)
  | Except.ok _, Except.error _ => Decidable.isFalse (fun hc => Except.noConfusion hc)
  | Except.ok x, Except.ok y =>
    if h : x = y then Decidable.isTrue (congrArg Except.ok h)
    else Decidable.isFalse (fun hc => h (Except.ok.inj hc))

/-- The concrete 4 by 4 correlation surface used to separate the two
readings of the shift composition: a clean symmetric peak at (1, 1). -/
def cexShiftSurf : Surf :=
  ⟨4, 4, fun i j =>
    if i = 1 ∧ j = 1 then 2
    else if (i = 0 ∧ j = 1) ∨ (i = 1 ∧ j = 0) ∨ (i = 1 ∧ j = 2) ∨ (i = 2 ∧ j = 1) then 1
    else 0⟩

/-- Decidability of the grid predicates, by unfolding the bounded
quantifiers. -/
instance (z : Grid) : Decidable (allFinite z) := by
  unfold allFinite; infer_instance

instance (z : Grid) : Decidable (windowFiniteHyp z) := by
  unfold windowFiniteHyp; infer_instance

instance (z : Grid) : Decidable (windowDisjointHyp z) := by
  unfold windowDisjointHyp; infer_instance

instance (z : Grid) : Decidable (isolatedHyp z) := by
  unfold isolatedHyp; infer_instance

/-- The counterexample grid for the reachability claim: a 5 by 5 grid
whose top left 3 by 3 block is non finite and whose other cells are
zero.  Every non finite cell reaches a finite value through the
connected neighborhood context, yet the window of the first bad cell
(0, 0) is entirely non finite, so the loop rewrites NaN there forever. -/
def cexReach : Grid :=
  ⟨5, 5, fun i j => if i ≤ 2 ∧ j ≤ 2 then none else some 0⟩

/-- The counterexample grid for the isolated repair claim: a 5 by 5
grid with two isolated non finite cells (2, 2) and (4, 0); the ring
around (2, 2) holds eights, everything else zeros.  The shifted edge
window of (4, 0) contains (2, 2), which is repaired first, so the
value written at (4, 0) uses the repaired mean instead of the original
finite neighbors only. -/
def cexIsolated : Grid :=
  ⟨5, 5, fun i j =>
    if (i = 2 ∧ j = 2) ∨ (i = 4 ∧ j = 0) then none
    else if 1 ≤ i ∧ i ≤ 3 ∧ 1 ≤ j ∧ j ≤ 3 then some 8
    else some 0⟩

/-! ## Helper lemmas -/

theorem mem_idxList {ny nx : ℕ} (p : ℕ × ℕ) :
    p ∈ idxList ny nx ↔ p.1 < ny ∧ p.2 < nx := by
  constructor
  · intro hp
    obtain ⟨k, hk, he⟩ := List.mem_map.1 hp
    have hk' : k < ny * nx := List.mem_range.1 hk
    have hnx : 0 < nx := by
      rcases Nat.eq_zero_or_pos nx with h0 | h0
      · subst h0; simp at hk'
      · exact h0
    subst he
    refine ⟨?_, Nat.mod_lt _ hnx⟩
    exact (Nat.div_lt_iff_lt_mul hnx).2 hk'
  · rintro ⟨h1, h2⟩
    refine List.mem_map.2 ⟨p.2 + nx * p.1, List.mem_range.2 ?_, ?_⟩
    · have : p.2 + nx * p.1 < nx * (p.1 + 1) := by
        have : nx * (p.1 + 1) = nx * p.1 + nx := by ring
        omega
      have h3 : nx * (p.1 + 1) ≤ nx * ny := Nat.mul_le_mul_left nx h1
      have : ny * nx = nx * ny := Nat.mul_comm _ _
      omega
    · have hdiv : (p.2 + nx * p.1) / nx = p.1 := by
        have h0 : 0 < nx := Nat.lt_of_le_of_lt (Nat.zero_le _) h2
        rw [Nat.add_mul_div_left _ _ h0, Nat.div_eq_of_lt h2, Nat.zero_add]
      have hmod : (p.2 + nx * p.1) % nx = p.2 := by
        rw [Nat.add_mul_mod_self_left, Nat.mod_eq_of_lt h2]
      rw [hdiv, hmod]

theorem firstBad_some {z : Grid} {p : ℕ × ℕ} (h : firstBad z = some p) :
    p.1 < z.ny ∧ p.2 < z.nx ∧ z.data p.1 p.2 = none := by
  have hmem : p ∈ idxList z.ny z.nx := List.mem_of_find?_eq_some h
  have hpred := List.find?_some h
  have hb := (mem_idxList p).1 hmem
  exact ⟨hb.1, hb.2, Option.isNone_iff_eq_none.1 hpred⟩

theorem firstBad_none_iff {z : Grid} : firstBad z = none ↔ allFinite z := by
  constructor
  · intro h i hi j hj
    have := List.find?_eq_none.1 h (i, j) ((mem_idxList (i, j)).2 ⟨hi, hj⟩)
    cases hd : z.data i j with
    | none => exact absurd (by simp [hd]) this
    | some v => simp
  · intro h
    apply List.find?_eq_none.2
    intro q hq
    have hb := (mem_idxList q).1 hq
    have := h q.1 hb.1 q.2 hb.2
    simp [Option.isNone_iff_eq_none]
    exact Option.ne_none_iff_isSome.2 this

theorem peakOf_lt (s : Surf) (h1 : 1 ≤ s.ny) (h2 : 1 ≤ s.nx) :
    (peakOf s).1 < s.ny ∧ (peakOf s).2 < s.nx := by
  have gen : ∀ (l : List (ℕ × ℕ)) (acc : ℕ × ℕ),
      (∀ p ∈ l, p.1 < s.ny ∧ p.2 < s.nx) → acc.1 < s.ny ∧ acc.2 < s.nx →
      ((l.foldl (fun best p =>
        if s.data best.1 best.2 < s.data p.1 p.2 then p else best) acc).1 < s.ny ∧
       (l.foldl (fun best p =>
        if s.data best.1 best.2 < s.data p.1 p.2 then p else best) acc).2 < s.nx) := by
    intro l
    induction l with
    | nil => intro acc _ hacc; simpa using hacc
    | cons a t ih =>
      intro acc hl hacc
      simp only [List.foldl_cons]
      apply ih
      · intro p hp; exact hl p (List.mem_cons_of_mem a hp)
      · by_cases hc : s.data acc.1 acc.2 < s.data a.1 a.2
        · simpa [hc] using hl a (List.mem_cons_self a t)
        · simpa [hc] using hacc
  exact gen _ (0, 0) (fun p hp => (mem_idxList p).1 hp) ⟨h1, h2⟩

theorem aam_ny (c : Surf) :
    (array_around_maximum c).ny =
      min ((peakOf c).1 + 2) (c.ny - 1) - max 0 ((peakOf c).1 - 1) := rfl

theorem aam_nx (c : Surf) :
    (array_around_maximum c).nx =
      min ((peakOf c).2 + 2) (c.nx - 1) - max 0 ((peakOf c).2 - 1) := rfl

theorem aam_ny_le_three (c : Surf) : (array_around_maximum c).ny ≤ 3 := by
  rw [aam_ny]; omega

theorem aam_nx_le_three (c : Surf) : (array_around_maximum c).nx ≤ 3 := by
  rw [aam_nx]; omega

theorem aam_pos (c : Surf) (h1 : 2 ≤ c.ny) (h2 : 2 ≤ c.nx) :
    1 ≤ (array_around_maximum c).ny ∧ 1 ≤ (array_around_maximum c).nx := by
  obtain ⟨hy, hx⟩ := peakOf_lt c (by omega) (by omega)
  rw [aam_ny, aam_nx]
  omega

/-! ## Claim C4 -/

/-- Claim C4 (confirmed): for every three element array y,
parabolic_turning_point y equals -0.5 * (y[2] - y[0]) divided by
(y[0] - 2*y[1] + y[2]); on the symmetric input [1, 2, 1] it returns
offset 0. -/
theorem parabolic_turning_point_closed_form :
    (∀ y0 y1 y2 : ℚ, parabolic_turning_point [y0, y1, y2] =
      (-(1 / 2) * (y2 - y0)) / (y0 - 2 * y1 + y2)) ∧
    parabolic_turning_point [1, 2, 1] = 0 := by
  constructor
  · intro y0 y1 y2
    unfold parabolic_turning_point dotq
    have hn : (List.zipWith (fun u v => u * v) [y0, y1, y2] [-1, 0, 1]).sum
        = -y0 + y2 := by simp
    have hd : (List.zipWith (fun u v => u * v) [y0, y1, y2] [1, -2, 1]).sum
        = y0 - 2 * y1 + y2 := by simp; ring
    rw [hn, hd]
    congr 1
    ring
  · unfold parabolic_turning_point dotq
    norm_num

/-! ## Claim C5 -/

/-- Claim C5 (confirmed): on a neighborhood with either dimension
greater than 3, get_correlation_shifts emits its diagnostic message
and returns the sentinel pair (modelled Except.ok none), not an
exception (an exception would be an Except.error). -/
theorem get_correlation_shifts_oversize (a : Surf)
    (h : 3 < a.ny ∨ 3 < a.nx) :
    get_correlation_shifts a =
      (["Input array is too big in at least one dimension. Returning Nones"],
        Except.ok none) := by
  unfold get_correlation_shifts
  rw [if_pos (Or.symm h)]

theorem get_correlation_shifts_oversize_witness :
    (3 < (Surf.mk 4 3 (fun _ _ => 0)).ny ∨ 3 < (Surf.mk 4 3 (fun _ _ => 0)).nx) ∧
    get_correlation_shifts (Surf.mk 4 3 (fun _ _ => 0)) =
      (["Input array is too big in at least one dimension. Returning Nones"],
        Except.ok none) :=
  ⟨Or.inl (by decide),
    get_correlation_shifts_oversize (Surf.mk 4 3 (fun _ _ => 0)) (Or.inl (by decide))⟩

/-! ## Claim C9 -/

/-- Claim C9 (confirmed): for a non empty correlation surface with
integer peak (row, col), the neighborhood handed to the refinement is
exactly corr[max(0, row-1) : min(row+2, ny-1),
max(0, col-1) : min(col+2, nx-1)], and consequently it is never larger
than 3 in either dimension. -/
theorem array_around_maximum_slice (c : Surf)
    (h1 : 1 ≤ c.ny) (h2 : 1 ≤ c.nx) :
    array_around_maximum c =
      Surf.slice c (max 0 ((peakOf c).1 - 1)) (min ((peakOf c).1 + 2) (c.ny - 1))
        (max 0 ((peakOf c).2 - 1)) (min ((peakOf c).2 + 2) (c.nx - 1)) ∧
    (array_around_maximum c).ny ≤ 3 ∧ (array_around_maximum c).nx ≤ 3 :=
  ⟨rfl, aam_ny_le_three c, aam_nx_le_three c⟩

theorem array_around_maximum_slice_witness :
    1 ≤ (Surf.mk 4 4 (fun _ _ => 0)).ny ∧ 1 ≤ (Surf.mk 4 4 (fun _ _ => 0)).nx ∧
    (array_around_maximum (Surf.mk 4 4 (fun _ _ => 0)) =
      Surf.slice (Surf.mk 4 4 (fun _ _ => 0))
        (max 0 ((peakOf (Surf.mk 4 4 (fun _ _ => 0))).1 - 1))
        (min ((peakOf (Surf.mk 4 4 (fun _ _ => 0))).1 + 2) ((Surf.mk 4 4 (fun _ _ => 0)).ny - 1))
        (max 0 ((peakOf (Surf.mk 4 4 (fun _ _ => 0))).2 - 1))
        (min ((peakOf (Surf.mk 4 4 (fun _ _ => 0))).2 + 2) ((Surf.mk 4 4 (fun _ _ => 0)).nx - 1)) ∧
    (array_around_maximum (Surf.mk 4 4 (fun _ _ => 0))).ny ≤ 3 ∧
    (array_around_maximum (Surf.mk 4 4 (fun _ _ => 0))).nx ≤ 3) :=
  ⟨by decide, by decide,
    array_around_maximum_slice (Surf.mk 4 4 (fun _ _ => 0)) (by decide) (by decide)⟩

/-! ## Claim C10 -/

/-- Claim C10 (confirmed): when the integer peak lies in the last row
(column) of the surface, the rows (columns) of the neighborhood handed
to the refinement all lie strictly before that last row (column), so
the cell holding the maximum is absent from it; for an axis of length
2 with the peak at index 1, the neighborhood has length 1 along that
axis. -/
theorem array_around_maximum_excludes_peak_row_col (c : Surf)
    (h1 : 1 ≤ c.ny) (h2 : 1 ≤ c.nx) :
    ((peakOf c).1 = c.ny - 1 →
      (∀ i, i < (array_around_maximum c).ny →
        max 0 ((peakOf c).1 - 1) + i < c.ny - 1) ∧
      (c.ny = 2 → (array_around_maximum c).ny = 1)) ∧
    ((peakOf c).2 = c.nx - 1 →
      (∀ j, j < (array_around_maximum c).nx →
        max 0 ((peakOf c).2 - 1) + j < c.nx - 1) ∧
      (c.nx = 2 → (array_around_maximum c).nx = 1)) := by
  rw [aam_ny, aam_nx]
  constructor
  · intro hr
    constructor
    · intro i hi; omega
    · intro h2'; omega
  · intro hc
    constructor
    · intro j hj; omega
    · intro h2'; omega

theorem array_around_maximum_excludes_peak_row_col_witness :
    1 ≤ (Surf.mk 2 2 (fun i j => if i = 1 ∧ j = 1 then 5 else 0)).ny ∧
    1 ≤ (Surf.mk 2 2 (fun i j => if i = 1 ∧ j = 1 then 5 else 0)).nx ∧
    (peakOf (Surf.mk 2 2 (fun i j => if i = 1 ∧ j = 1 then 5 else 0)) = (1, 1)) ∧
    (((peakOf (Surf.mk 2 2 (fun i j => if i = 1 ∧ j = 1 then 5 else 0))).1 =
        (Surf.mk 2 2 (fun i j => if i = 1 ∧ j = 1 then 5 else 0)).ny - 1 →
      (∀ i, i < (array_around_maximum (Surf.mk 2 2 (fun i j => if i = 1 ∧ j = 1 then 5 else 0))).ny →
        max 0 ((peakOf (Surf.mk 2 2 (fun i j => if i = 1 ∧ j = 1 then 5 else 0))).1 - 1) + i <
          (Surf.mk 2 2 (fun i j => if i = 1 ∧ j = 1 then 5 else 0)).ny - 1) ∧
      ((Surf.mk 2 2 (fun i j => if i = 1 ∧ j = 1 then 5 else 0)).ny = 2 →
        (array_around_maximum (Surf.mk 2 2 (fun i j => if i = 1 ∧ j = 1 then 5 else 0))).ny = 1)) ∧
    ((peakOf (Surf.mk 2 2 (fun i j => if i = 1 ∧ j = 1 then 5 else 0))).2 =
        (Surf.mk 2 2 (fun i j => if i = 1 ∧ j = 1 then 5 else 0)).nx - 1 →
      (∀ j, j < (array_around_maximum (Surf.mk 2 2 (fun i j => if i = 1 ∧ j = 1 then 5 else 0))).nx →
        max 0 ((peakOf (Surf.mk 2 2 (fun i j => if i = 1 ∧ j = 1 then 5 else 0))).2 - 1) + j <
          (Surf.mk 2 2 (fun i j => if i = 1 ∧ j = 1 then 5 else 0)).nx - 1) ∧
      ((Surf.mk 2 2 (fun i j => if i = 1 ∧ j = 1 then 5 else 0)).nx = 2 →
        (array_around_maximum (Surf.mk 2 2 (fun i j => if i = 1 ∧ j = 1 then 5 else 0))).nx = 1))) :=
  ⟨by decide, by decide, by decide,
    array_around_maximum_excludes_peak_row_col
      (Surf.mk 2 2 (fun i j => if i = 1 ∧ j = 1 then 5 else 0)) (by decide) (by decide)⟩

/-! ## Claim C1 -/

set_option maxRecDepth 16000 in
/-- Claim C1 (corrected), counterexample: on cexShiftSurf the outer
integer peak is (1, 1), the local max location inside the neighborhood
is (1, 1), the refinement returns offsets (0, 0), and the returned
shift is (1, 1) = offsets + outer peak; the value claimed by the spec,
offsets + local max location + outer peak = (2, 2), differs. -/
theorem find_best_match_location_no_local_max_cex :
    find_best_match_location cexShiftSurf = Except.ok (1, 1) ∧
    (get_correlation_shifts (array_around_maximum cexShiftSurf)).2 =
      Except.ok (some (0, 0)) ∧
    peakOf (array_around_maximum cexShiftSurf) = (1, 1) ∧
    peakOf cexShiftSurf = (1, 1) ∧
    ¬((1 : ℚ) = 0 + 1 + 1) := by
  refine ⟨?_, ?_, ?_, ?_, by norm_num⟩
  · with_unfolding_all rfl
  · with_unfolding_all rfl
  · rfl
  · rfl

/-- Claim C1 (amended): the shift returned by find_best_match_location
is the refinement offsets plus the outer integer peak location alone;
the local max location of the neighborhood is not added. -/
theorem find_best_match_location_peak_translation (c : Surf)
    (h1 : 2 ≤ c.ny) (h2 : 2 ≤ c.nx) :
    ∃ q : ℚ × ℚ,
      (get_correlation_shifts (array_around_maximum c)).2 = Except.ok (some q) ∧
      find_best_match_location c =
        Except.ok (q.1 + ((peakOf c).1 : ℚ), q.2 + ((peakOf c).2 : ℚ)) := by
  have hy3 := aam_ny_le_three c
  have hx3 := aam_nx_le_three c
  obtain ⟨hy1, hx1⟩ := aam_pos c h1 h2
  have hgcs : ∃ q : ℚ × ℚ,
      (get_correlation_shifts (array_around_maximum c)).2 = Except.ok (some q) := by
    unfold get_correlation_shifts
    rw [if_neg (by omega), if_neg (by omega)]
    exact ⟨_, rfl⟩
  obtain ⟨q, hq⟩ := hgcs
  refine ⟨q, hq, ?_⟩
  unfold find_best_match_location
  rw [if_neg (by omega)]
  simp only [hq]

theorem find_best_match_location_peak_translation_witness :
    2 ≤ cexShiftSurf.ny ∧ 2 ≤ cexShiftSurf.nx ∧
    ∃ q : ℚ × ℚ,
      (get_correlation_shifts (array_around_maximum cexShiftSurf)).2 = Except.ok (some q) ∧
      find_best_match_location cexShiftSurf =
        Except.ok (q.1 + ((peakOf cexShiftSurf).1 : ℚ), q.2 + ((peakOf cexShiftSurf).2 : ℚ)) :=
  ⟨by decide, by decide,
    find_best_match_location_peak_translation cexShiftSurf (by decide) (by decide)⟩

/-! ## Claim C7 -/

theorem foldl_max_eq_maximum (l : List ℤ) (a : ℤ) :
    (a :: l).maximum = some (l.foldl max a) := by
  induction l generalizing a with
  | nil => rfl
  | cons b t ih =>
    rw [List.foldl_cons, ← ih (max a b), List.maximum_cons, List.maximum_cons,
      List.maximum_cons, ← max_assoc]
    rw [WithBot.coe_max]

theorem upper_clip_eq_spec (z : List ℚ) : _upper_clip z = specUpperClip z := by
  unfold _upper_clip specUpperClip
  cases h : (z.filter (fun v => decide (0 ≤ v))).map (fun v => ⌈v⌉) with
  | nil => simp [h]
  | cons a rest => rw [foldl_max_eq_maximum]; rfl

theorem lower_clip_eq_spec (z : List ℚ) : _lower_clip z = specLowerClip z := by
  unfold _lower_clip specLowerClip
  cases h : (z.filter (fun v => decide (v ≤ 0))).map (fun v => ⌈-v⌉) with
  | nil => simp [h]
  | cons a rest => rw [foldl_max_eq_maximum]; rfl

/-- Claim C7 (confirmed): clip_edges computes the four margins as the
maxima of the ceilings described by the spec (zero when no entry
qualifies) and returns the sub array
datacube[ylower : ny - yupper - 1, xlower : nx - xupper - 1, :]; on
the worked example with yshifts [2, -1, 0] and xshifts [0, 0, 0] on a
(10, 10, 3) datacube, the result has shape (6, 9, 3). -/
theorem clip_edges_margins_and_example :
    (∀ z : List ℚ, _upper_clip z = specUpperClip z ∧ _lower_clip z = specLowerClip z) ∧
    (∀ (d : Cube) (y x : List ℚ), clip_edges d y x =
      d.slice3 (specLowerClip y) ((d.ny : ℤ) - specUpperClip y - 1)
        (specLowerClip x) ((d.nx : ℤ) - specUpperClip x - 1) 0 (d.nt : ℤ)) ∧
    ((clip_edges (Cube.mk 10 10 3 (fun _ _ _ => 0)) [2, -1, 0] [0, 0, 0]).ny = 6 ∧
     (clip_edges (Cube.mk 10 10 3 (fun _ _ _ => 0)) [2, -1, 0] [0, 0, 0]).nx = 9 ∧
     (clip_edges (Cube.mk 10 10 3 (fun _ _ _ => 0)) [2, -1, 0] [0, 0, 0]).nt = 3) := by
  refine ⟨fun z => ⟨upper_clip_eq_spec z, lower_clip_eq_spec z⟩, ?_, ?_, ?_, ?_⟩
  · intro d y x
    unfold clip_edges
    rw [upper_clip_eq_spec, upper_clip_eq_spec, lower_clip_eq_spec, lower_clip_eq_spec]
  · with_unfolding_all rfl
  · with_unfolding_all rfl
  · with_unfolding_all rfl

/-! ## Repair loop unfolding lemmas -/

theorem repair_nonfinite_clean {z : Grid} (h : firstBad z = none) (fuel : ℕ) :
    repair_nonfinite fuel z = some z := by
  unfold repair_nonfinite
  rw [h]

theorem repair_nonfinite_zero {z : Grid} {p : ℕ × ℕ} (h : firstBad z = some p) :
    repair_nonfinite 0 z = none := by
  unfold repair_nonfinite
  rw [h]

theorem repair_nonfinite_succ {z : Grid} {p : ℕ × ℕ} (h : firstBad z = some p) (f : ℕ) :
    repair_nonfinite (f + 1) z = repair_nonfinite f (repairStep z p) := by
  conv =>
    lhs
    unfold repair_nonfinite
  rw [h]

/-! ## Claim C8 -/

/-- Claim C8 (confirmed): on a grid whose in range entries are all
finite, repair_nonfinite is a no-op: the loop exits at once and the
identical grid is returned, for any fuel. -/
theorem repair_nonfinite_noop (fuel : ℕ) (z : Grid) (h : allFinite z) :
    repair_nonfinite fuel z = some z :=
  repair_nonfinite_clean (firstBad_none_iff.2 h) fuel

theorem repair_nonfinite_noop_witness :
    allFinite (Grid.mk 2 2 (fun _ _ => some 1)) ∧
    repair_nonfinite 5 (Grid.mk 2 2 (fun _ _ => some 1)) =
      some (Grid.mk 2 2 (fun _ _ => some 1)) :=
  ⟨by decide, repair_nonfinite_noop 5 (Grid.mk 2 2 (fun _ _ => some 1)) (by decide)⟩

/-! ## Claim C2 -/

theorem mem_badSet {z : Grid} {q : ℕ × ℕ} :
    q ∈ badSet z ↔ q.1 < z.ny ∧ q.2 < z.nx ∧ z.data q.1 q.2 = none := by
  unfold badSet
  rw [Finset.mem_filter, Finset.mem_product, Finset.mem_range, Finset.mem_range]
  tauto

theorem badSet_setCell {z : Grid} {i j : ℕ} (hd : z.data i j = none) (v : ℚ) :
    badSet (z.setCell i j (some v)) = (badSet z).erase (i, j) := by
  ext q
  constructor
  · intro hq
    obtain ⟨h1, h2, h3⟩ := mem_badSet.1 hq
    by_cases hc : q.1 = i ∧ q.2 = j
    · exfalso
      have : (Grid.setCell z i j (some v)).data q.1 q.2 = some v := by
        simp [Grid.setCell, hc]
      rw [this] at h3
      cases h3
    · have h3' : z.data q.1 q.2 = none := by
        have : (Grid.setCell z i j (some v)).data q.1 q.2 = z.data q.1 q.2 := by
          simp [Grid.setCell, hc]
        rwa [this] at h3
      refine Finset.mem_erase.2 ⟨?_, mem_badSet.2 ⟨h1, h2, h3'⟩⟩
      intro he
      exact hc ⟨by rw [he], by rw [he]⟩
  · intro hq
    obtain ⟨hne, hmem⟩ := Finset.mem_erase.1 hq
    obtain ⟨h1, h2, h3⟩ := mem_badSet.1 hmem
    refine mem_badSet.2 ⟨h1, h2, ?_⟩
    show (if q.1 = i ∧ q.2 = j then some v else z.data q.1 q.2) = none
    rw [if_neg ?_]
    · exact h3
    · intro hc
      exact hne (Prod.ext hc.1 hc.2)

theorem windowMean_isSome_of_finite {z : Grid} {i j : ℕ}
    (h : ∃ q ∈ windowCells z.ny z.nx i j, (z.data q.1 q.2).isSome = true) :
    ∃ m, windowMean z i j = some m := by
  obtain ⟨q, hq, hs⟩ := h
  obtain ⟨v, hv⟩ := Option.isSome_iff_exists.1 hs
  have hmem : some v ∈ windowVals z i j := List.mem_map.2 ⟨q, hq, by rw [hv]⟩
  have hv' : v ∈ (windowVals z i j).reduceOption := List.reduceOption_mem_iff.2 hmem
  have hne : (windowVals z i j).reduceOption ≠ [] := List.ne_nil_of_mem hv'
  unfold windowMean
  rw [if_neg (by simpa [List.isEmpty_iff] using hne)]
  exact ⟨_, rfl⟩

theorem windowFiniteHyp_setCell {z : Grid} {i j : ℕ} (v : ℚ)
    (h : windowFiniteHyp z) : windowFiniteHyp (z.setCell i j (some v)) := by
  intro a ha b hb hd
  by_cases hc : a = i ∧ b = j
  · exfalso
    have : (Grid.setCell z i j (some v)).data a b = some v := by
      simp [Grid.setCell, hc]
    rw [this] at hd
    cases hd
  · have hd' : z.data a b = none := by
      have : (Grid.setCell z i j (some v)).data a b = z.data a b := by
        simp [Grid.setCell, hc]
      rwa [this] at hd
    obtain ⟨q, hq, hs⟩ := h a ha b hb hd'
    refine ⟨q, hq, ?_⟩
    show (if q.1 = i ∧ q.2 = j then some v else z.data q.1 q.2).isSome = true
    by_cases hqc : q.1 = i ∧ q.2 = j
    · rw [if_pos hqc]
      rfl
    · rw [if_neg hqc]
      exact hs

theorem repair_terminates_aux :
    ∀ (n : ℕ) (z : Grid), windowFiniteHyp z → badCount z ≤ n →
      ∃ g, repair_nonfinite n z = some g ∧ allFinite g := by
  intro n
  induction n with
  | zero =>
    intro z h hc
    cases hfb : firstBad z with
    | none => exact ⟨z, repair_nonfinite_clean hfb 0, firstBad_none_iff.1 hfb⟩
    | some p =>
      exfalso
      obtain ⟨h1, h2, h3⟩ := firstBad_some hfb
      have hmem : p ∈ badSet z := mem_badSet.2 ⟨h1, h2, h3⟩
      have : 0 < badCount z := Finset.card_pos.2 ⟨p, hmem⟩
      omega
  | succ n ih =>
    intro z h hc
    cases hfb : firstBad z with
    | none => exact ⟨z, repair_nonfinite_clean hfb _, firstBad_none_iff.1 hfb⟩
    | some p =>
      obtain ⟨h1, h2, h3⟩ := firstBad_some hfb
      obtain ⟨m, hm⟩ := windowMean_isSome_of_finite (h p.1 h1 p.2 h2 h3)
      have hstep : repairStep z p = z.setCell p.1 p.2 (some m) := by
        unfold repairStep
        rw [hm]
      have hmem : p ∈ badSet z := mem_badSet.2 ⟨h1, h2, h3⟩
      have hcount : badCount (z.setCell p.1 p.2 (some m)) ≤ n := by
        have hce : ((badSet z).erase (p.1, p.2)).card = (badSet z).card - 1 :=
          Finset.card_erase_of_mem hmem
        have hpos : 0 < (badSet z).card := Finset.card_pos.2 ⟨p, hmem⟩
        unfold badCount at hc ⊢
        rw [badSet_setCell h3 m, hce]
        omega
      rw [repair_nonfinite_succ hfb, hstep]
      exact ih _ (windowFiniteHyp_setCell m h) hcount

/-- Claim C2 (amended): for every grid in which each non finite cell
has at least one finite value inside its own repair window, the repair
loop terminates, with fuel equal to the number of non finite cells,
and the returned grid has zero non finite entries. -/
theorem repair_nonfinite_terminates (z : Grid) (h : windowFiniteHyp z) :
    ∃ g, repair_nonfinite (badCount z) z = some g ∧ allFinite g :=
  repair_terminates_aux (badCount z) z h le_rfl

theorem repair_nonfinite_terminates_witness :
    windowFiniteHyp (Grid.mk 3 3 (fun i j => if i = 1 ∧ j = 1 then none else some 1)) ∧
    ∃ g, repair_nonfinite
        (badCount (Grid.mk 3 3 (fun i j => if i = 1 ∧ j = 1 then none else some 1)))
        (Grid.mk 3 3 (fun i j => if i = 1 ∧ j = 1 then none else some 1)) = some g ∧
      allFinite g :=
  ⟨by decide,
    repair_nonfinite_terminates
      (Grid.mk 3 3 (fun i j => if i = 1 ∧ j = 1 then none else some 1)) (by decide)⟩

/-- Claim C2 (corrected), counterexample: on cexReach every non finite
cell reaches a finite value through the connected neighborhood
context (depth one suffices), yet repair_nonfinite never terminates:
it returns none for every amount of fuel, because the first bad cell
in scan order has an all non finite window and is rewritten to NaN
in place forever. -/
theorem repair_nonfinite_reachable_diverges :
    connReach cexReach ∧ ∀ fuel, repair_nonfinite fuel cexReach = none := by
  constructor
  · have hall : ∀ i, i < 5 → ∀ j, j < 5 →
        (cexReach.data i j = none → reachB cexReach 1 (i, j) = true) := by decide
    intro i hi j hj hd
    exact ⟨1, hall i hi j hj hd⟩
  · have hfb : firstBad cexReach = some (0, 0) := by decide
    have hwm : windowMean cexReach 0 0 = none := by decide
    have hstep : repairStep cexReach (0, 0) = cexReach := by
      unfold repairStep Grid.setCell
      rw [hwm]
      show Grid.mk 5 5 _ = cexReach
      have hdata : (fun a b => if a = 0 ∧ b = 0 then none else cexReach.data a b) =
          cexReach.data := by
        funext a b
        by_cases hab : a = 0 ∧ b = 0
        · rw [if_pos hab]
          obtain ⟨ha, hb⟩ := hab
          subst ha
          subst hb
          rfl
        · rw [if_neg hab]
      rw [hdata]
      rfl
    intro fuel
    induction fuel with
    | zero => exact repair_nonfinite_zero hfb
    | succ f ih =>
      rw [repair_nonfinite_succ hfb, hstep]
      exact ih

/-! ## Claim C6 -/

theorem patch_bad_iff {z : Grid} {S : Finset (ℕ × ℕ)} (hS : S ⊆ badSet z)
    (h3 : windowFiniteHyp z) {q : ℕ × ℕ} (hq1 : q.1 < z.ny) (hq2 : q.2 < z.nx) :
    (patchSet z S).data q.1 q.2 = none ↔ q ∈ badSet z ∧ q ∉ S := by
  by_cases hq : q ∈ S
  · have hqb := mem_badSet.1 (hS hq)
    obtain ⟨m, hm⟩ := windowMean_isSome_of_finite (h3 q.1 hqb.1 q.2 hqb.2.1 hqb.2.2)
    have : (patchSet z S).data q.1 q.2 = some m := by
      show (if (q.1, q.2) ∈ S then windowMean z q.1 q.2 else z.data q.1 q.2) = some m
      rw [if_pos hq, hm]
    rw [this]
    simp [hq]
  · have : (patchSet z S).data q.1 q.2 = z.data q.1 q.2 := by
      show (if (q.1, q.2) ∈ S then windowMean z q.1 q.2 else z.data q.1 q.2) =
        z.data q.1 q.2
      rw [if_neg hq]
    rw [this]
    constructor
    · intro hd
      exact ⟨mem_badSet.2 ⟨hq1, hq2, hd⟩, hq⟩
    · intro hd
      exact (mem_badSet.1 hd.1).2.2

theorem windowMean_patch {z : Grid} {S : Finset (ℕ × ℕ)} (hS : S ⊆ badSet z)
    (h2 : windowDisjointHyp z) {p : ℕ × ℕ} (hp : p ∈ badSet z) (hpS : p ∉ S) :
    windowMean (patchSet z S) p.1 p.2 = windowMean z p.1 p.2 := by
  obtain ⟨hp1, hp2, hpd⟩ := mem_badSet.1 hp
  have hvals : windowVals (patchSet z S) p.1 p.2 = windowVals z p.1 p.2 := by
    unfold windowVals
    apply List.map_congr_left
    intro q hq
    show (if (q.1, q.2) ∈ S then windowMean z q.1 q.2 else z.data q.1 q.2) =
      z.data q.1 q.2
    by_cases hqp : q = p
    · subst hqp
      rw [if_neg hpS]
    · have hsome := h2 p.1 hp1 p.2 hp2 hpd q hq hqp
      have hqnb : q ∉ badSet z := by
        intro hmem
        rw [(mem_badSet.1 hmem).2.2] at hsome
        cases hsome
      rw [if_neg (fun hmem => hqnb (hS hmem))]
  unfold windowMean
  rw [hvals]

theorem repairStep_patch {z : Grid} {S : Finset (ℕ × ℕ)} (hS : S ⊆ badSet z)
    (h2 : windowDisjointHyp z) {p : ℕ × ℕ} (hp : p ∈ badSet z) (hpS : p ∉ S) :
    repairStep (patchSet z S) p = patchSet z (insert p S) := by
  unfold repairStep Grid.setCell
  have hwm := windowMean_patch hS h2 hp hpS
  have hdata : (fun a b => if a = p.1 ∧ b = p.2 then windowMean (patchSet z S) p.1 p.2
      else (patchSet z S).data a b) = (patchSet z (insert p S)).data := by
    funext a b
    show _ = (if (a, b) ∈ insert p S then windowMean z a b else z.data a b)
    by_cases hab : a = p.1 ∧ b = p.2
    · have habp : (a, b) = p := Prod.ext hab.1 hab.2
      rw [if_pos hab, if_pos (by rw [habp]; exact Finset.mem_insert_self p S), hwm,
        hab.1, hab.2]
    · have habp : (a, b) ≠ p := by
        intro he
        exact hab ⟨by rw [← he], by rw [← he]⟩
      rw [if_neg hab]
      show (if (a, b) ∈ S then windowMean z a b else z.data a b) = _
      by_cases hmem : (a, b) ∈ S
      · rw [if_pos hmem, if_pos (Finset.mem_insert_of_mem hmem)]
      · rw [if_neg hmem, if_neg (fun hc => by
          rcases Finset.mem_insert.1 hc with h | h
          · exact habp h
          · exact hmem h)]
  show Grid.mk (patchSet z S).ny (patchSet z S).nx _ = patchSet z (insert p S)
  rw [hdata]
  rfl

theorem repair_patch_aux {z : Grid} (h2 : windowDisjointHyp z) (h3 : windowFiniteHyp z) :
    ∀ (n : ℕ) (S : Finset (ℕ × ℕ)), S ⊆ badSet z → (badSet z \ S).card ≤ n →
      repair_nonfinite n (patchSet z S) = some (patchSet z (badSet z)) := by
  intro n
  induction n with
  | zero =>
    intro S hS hc
    cases hfb : firstBad (patchSet z S) with
    | none =>
      have hsub : badSet z ⊆ S := by
        intro q hq
        by_contra hqS
        have hbad : (patchSet z S).data q.1 q.2 = none :=
          (patch_bad_iff hS h3 (mem_badSet.1 hq).1 (mem_badSet.1 hq).2.1).2 ⟨hq, hqS⟩
        have hfin := firstBad_none_iff.1 hfb q.1 (mem_badSet.1 hq).1 q.2 (mem_badSet.1 hq).2.1
        rw [hbad] at hfin
        cases hfin
      have : S = badSet z := le_antisymm hS hsub
      rw [repair_nonfinite_clean hfb, this]
    | some p =>
      exfalso
      obtain ⟨h1p, h2p, h3p⟩ := firstBad_some hfb
      have hmem : p ∈ badSet z \ S := by
        have := (patch_bad_iff hS h3 h1p h2p).1 h3p
        exact Finset.mem_sdiff.2 this
      have : 0 < (badSet z \ S).card := Finset.card_pos.2 ⟨p, hmem⟩
      omega
  | succ n ih =>
    intro S hS hc
    cases hfb : firstBad (patchSet z S) with
    | none =>
      have hsub : badSet z ⊆ S := by
        intro q hq
        by_contra hqS
        have hbad : (patchSet z S).data q.1 q.2 = none :=
          (patch_bad_iff hS h3 (mem_badSet.1 hq).1 (mem_badSet.1 hq).2.1).2 ⟨hq, hqS⟩
        have hfin := firstBad_none_iff.1 hfb q.1 (mem_badSet.1 hq).1 q.2 (mem_badSet.1 hq).2.1
        rw [hbad] at hfin
        cases hfin
      have : S = badSet z := le_antisymm hS hsub
      rw [repair_nonfinite_clean hfb, this]
    | some p =>
      obtain ⟨h1p, h2p, h3p⟩ := firstBad_some hfb
      have hmem : p ∈ badSet z \ S := by
        have := (patch_bad_iff hS h3 h1p h2p).1 h3p
        exact Finset.mem_sdiff.2 this
      have hpb : p ∈ badSet z := (Finset.mem_sdiff.1 hmem).1
      have hpS : p ∉ S := (Finset.mem_sdiff.1 hmem).2
      rw [repair_nonfinite_succ hfb, repairStep_patch hS h2 hpb hpS]
      apply ih
      · exact Finset.insert_subset hpb hS
      · have hsd : badSet z \ insert p S = (badSet z \ S).erase p := by
          ext q
          simp only [Finset.mem_sdiff, Finset.mem_insert, Finset.mem_erase]
          tauto
        rw [hsd, Finset.card_erase_of_mem hmem]
        omega

/-- Claim C6 (amended): when each non finite cell is isolated, no
repair window of a non finite cell contains another non finite cell,
and each such window holds at least one finite value, repair_nonfinite
terminates and replaces each non finite cell with exactly the nan-mean
of its window in the original array, leaves every finite cell
unchanged, and returns a grid with zero non finite entries. -/
theorem repair_nonfinite_isolated_means (z : Grid) (h1 : isolatedHyp z)
    (h2 : windowDisjointHyp z) (h3 : windowFiniteHyp z) :
    ∃ g, repair_nonfinite (badCount z) z = some g ∧ allFinite g ∧
      ∀ i, i < z.ny → ∀ j, j < z.nx →
        g.data i j = if z.data i j = none then windowMean z i j else z.data i j := by
  have hempty : patchSet z ∅ = z := by
    show Grid.mk z.ny z.nx _ = z
    have hdata : (fun i j => if ((i, j) : ℕ × ℕ) ∈ (∅ : Finset (ℕ × ℕ))
        then windowMean z i j else z.data i j) = z.data := by
      funext i j
      rw [if_neg (Finset.not_mem_empty _)]
    rw [hdata]
  have hcard : (badSet z \ ∅).card ≤ badCount z := by
    rw [Finset.sdiff_empty]
    exact le_rfl
  have hmain := repair_patch_aux h2 h3 (badCount z) ∅ (Finset.empty_subset _) hcard
  rw [hempty] at hmain
  refine ⟨patchSet z (badSet z), hmain, ?_, ?_⟩
  · intro i hi j hj
    show (if ((i, j) : ℕ × ℕ) ∈ badSet z then windowMean z i j else z.data i j).isSome = true
    by_cases hmem : ((i, j) : ℕ × ℕ) ∈ badSet z
    · rw [if_pos hmem]
      obtain ⟨m, hm⟩ := windowMean_isSome_of_finite (h3 i hi j hj (mem_badSet.1 hmem).2.2)
      rw [hm]
      rfl
    · rw [if_neg hmem]
      cases hd : z.data i j with
      | none => exact absurd (mem_badSet.2 ⟨hi, hj, hd⟩) hmem
      | some v => rfl
  · intro i hi j hj
    show (if ((i, j) : ℕ × ℕ) ∈ badSet z then windowMean z i j else z.data i j) = _
    by_cases hd : z.data i j = none
    · rw [if_pos (mem_badSet.2 ⟨hi, hj, hd⟩), if_pos hd]
    · rw [if_neg (fun hmem => hd (mem_badSet.1 hmem).2.2), if_neg hd]

theorem repair_nonfinite_isolated_means_witness :
    isolatedHyp (Grid.mk 3 3 (fun i j => if i = 1 ∧ j = 1 then none else some 2)) ∧
    windowDisjointHyp (Grid.mk 3 3 (fun i j => if i = 1 ∧ j = 1 then none else some 2)) ∧
    windowFiniteHyp (Grid.mk 3 3 (fun i j => if i = 1 ∧ j = 1 then none else some 2)) ∧
    ∃ g, repair_nonfinite
        (badCount (Grid.mk 3 3 (fun i j => if i = 1 ∧ j = 1 then none else some 2)))
        (Grid.mk 3 3 (fun i j => if i = 1 ∧ j = 1 then none else some 2)) = some g ∧
      allFinite g ∧
      ∀ i, i < (Grid.mk 3 3 (fun i j => if i = 1 ∧ j = 1 then none else some 2)).ny →
        ∀ j, j < (Grid.mk 3 3 (fun i j => if i = 1 ∧ j = 1 then none else some 2)).nx →
          g.data i j = if (Grid.mk 3 3 (fun i j => if i = 1 ∧ j = 1 then none else some 2)).data i j = none
            then windowMean (Grid.mk 3 3 (fun i j => if i = 1 ∧ j = 1 then none else some 2)) i j
            else (Grid.mk 3 3 (fun i j => if i = 1 ∧ j = 1 then none else some 2)).data i j :=
  ⟨by decide, by decide, by decide,
    repair_nonfinite_isolated_means
      (Grid.mk 3 3 (fun i j => if i = 1 ∧ j = 1 then none else some 2))
      (by decide) (by decide) (by decide)⟩

/-- Claim C6 (corrected), counterexample: on cexIsolated every non
finite cell is isolated, yet the repaired value at (4, 0) is 4, the
mean over the current window that includes the already repaired cell
(2, 2), while the nan-mean of the window of (4, 0) in the original
array is 24/7. -/
theorem repair_nonfinite_isolated_cex :
    isolatedHyp cexIsolated ∧
    (repair_nonfinite (badCount cexIsolated) cexIsolated).map (fun g => g.data 4 0) =
      some (some 4) ∧
    windowMean cexIsolated 4 0 = some (24 / 7) ∧ ¬((4 : ℚ) = 24 / 7) := by
  refine ⟨by decide, ?_, ?_, by norm_num⟩
  · with_unfolding_all rfl
  · with_unfolding_all rfl
